import Mathlib

/- Verification of melting.py (eclarke/melt): DNA melting temperature by
   nearest-neighbor thermodynamics with monovalent/divalent cation correction.
   Machine floats are modelled as real numbers; the exact decimal literals of
   the source are kept as rational values where the computation is rational.
   Python partiality (IndexError on indexing an empty string, KeyError on the
   complement-dict lookup) is modelled with Option. -/

/-- Python dict comp of melting.py lines 28-33.  A lookup outside A, T, G, C
raises KeyError, modelled by Option. -/
def comp : Char → Option Char
  | 'A' => some 'T'
  | 'T' => some 'A'
  | 'G' => some 'C'
  | 'C' => some 'G'
  | _ => none

/-- melting.py lines 26-34, _is_sym: seq == join of the complement of each
character, reversed.  The comparison is reached only if every character has a
complement. -/
def _is_sym (seq : List Char) : Option Bool :=
  (seq.mapM comp).map (fun l => decide (seq = l.reverse))

/-- Model of the Python builtin st.index(p, x): the least index i with x <= i
at which p occurs as a contiguous substring of st (Python slice st[i:i+len(p)]
equals p), or none (ValueError) when there is no such index. -/
def index_from (st p : List Char) (x : Nat) : Option Nat :=
  if h1 : st.length < x then none
  else if h2 : (st.drop x).take p.length = p then some x
  else index_from st p (x + 1)
termination_by st.length + 1 - x
decreasing_by omega

/-- Occurrence indices returned by index_from are in range and least. -/
theorem index_from_some (st p : List Char) :
    ∀ x i, index_from st p x = some i →
      x ≤ i ∧ i ≤ st.length ∧ (st.drop i).take p.length = p ∧
        ∀ j, x ≤ j → j < i → ¬ (st.drop j).take p.length = p := by
  have key : ∀ n x i, st.length + 1 - x ≤ n → index_from st p x = some i →
      x ≤ i ∧ i ≤ st.length ∧ (st.drop i).take p.length = p ∧
        ∀ j, x ≤ j → j < i → ¬ (st.drop j).take p.length = p := by
    intro n
    induction n with
    | zero =>
      intro x i hn h
      unfold index_from at h
      rw [dif_pos (by omega)] at h
      exact absurd h (by simp)
    | succ n ih =>
      intro x i hn h
      unfold index_from at h
      by_cases h1 : st.length < x
      · rw [dif_pos h1] at h
        exact absurd h (by simp)
      · rw [dif_neg h1] at h
        by_cases h2 : (st.drop x).take p.length = p
        · rw [dif_pos h2] at h
          have hxi : x = i := by injection h
          subst hxi
          exact ⟨le_refl x, by omega, h2, fun j hj1 hj2 => absurd hj1 (by omega)⟩
        · rw [dif_neg h2] at h
          obtain ⟨ha, hb, hc, hd⟩ := ih (x + 1) i (by omega) h
          refine ⟨by omega, hb, hc, fun j hj1 hj2 => ?_⟩
          rcases Nat.eq_or_lt_of_le hj1 with heq | hlt
          · rw [← heq]; exact h2
          · exact hd j hlt hj2
  intro x i h
  exact key (st.length + 1 - x) x i (le_refl _) h

/-- When index_from finds nothing there is no occurrence at or after x. -/
theorem index_from_none (st p : List Char) :
    ∀ x, index_from st p x = none →
      ∀ j, x ≤ j → j ≤ st.length → ¬ (st.drop j).take p.length = p := by
  have key : ∀ n x, st.length + 1 - x ≤ n → index_from st p x = none →
      ∀ j, x ≤ j → j ≤ st.length → ¬ (st.drop j).take p.length = p := by
    intro n
    induction n with
    | zero =>
      intro x hn _ j hj1 hj2 _
      omega
    | succ n ih =>
      intro x hn h
      unfold index_from at h
      by_cases h1 : st.length < x
      · intro j hj1 hj2 _
        omega
      · rw [dif_neg h1] at h
        by_cases h2 : (st.drop x).take p.length = p
        · rw [dif_pos h2] at h
          exact absurd h (by simp)
        · rw [dif_neg h2] at h
          intro j hj1 hj2 hocc
          rcases Nat.eq_or_lt_of_le hj1 with heq | hlt
          · rw [← heq] at hocc
            exact h2 hocc
          · exact ih (x + 1) (by omega) h j hlt hj2 hocc
  intro x h
  exact key (st.length + 1 - x) x (le_refl _) h

/-- The while-loop of melting.py lines 40-46: find the next occurrence at or
after x, count it, continue searching from one past its start. -/
def overcountAux (st p : List Char) (x : Nat) : Nat :=
  match h : index_from st p x with
  | none => 0
  | some i => overcountAux st p (i + 1) + 1
termination_by st.length + 1 - x
decreasing_by
  have := index_from_some st p x i h
  omega

/-- melting.py lines 37-47, _overcount: overlap-inclusive substring count. -/
def _overcount (st p : List Char) : Nat := overcountAux st p 0

/-- melting.py lines 50-69, _tercorr: terminal-base correction.  The deltas
are exact decimals, kept in the rationals.  Indexing st[0] and st[-1] on an
empty string raises IndexError, modelled by Option. -/
def _tercorr (st : List Char) : Option (ℚ × ℚ) :=
  (_is_sym st).bind (fun sym =>
    (st.head?).bind (fun start =>
      (st.getLast?).map (fun en =>
        let ds0 : ℚ := if sym then -1.4 else 0
        let dh1 : ℚ := if start = 'G' ∨ start = 'C' then 0 + 0.1
          else if start = 'A' ∨ start = 'T' then 0 + 2.3 else 0
        let ds1 : ℚ := if start = 'G' ∨ start = 'C' then ds0 - 2.8
          else if start = 'A' ∨ start = 'T' then ds0 + 4.1 else ds0
        let dh2 : ℚ := if en = 'G' ∨ en = 'C' then dh1 + 0.1
          else if en = 'A' ∨ en = 'T' then dh1 + 2.3 else dh1
        let ds2 : ℚ := if en = 'G' ∨ en = 'C' then ds1 - 2.8
          else if en = 'A' ∨ en = 'T' then ds1 + 4.1 else ds1
        (dh2, ds2))))

/-- delta H coefficients (kcal/mol), melting.py lines 97-106. -/
def dh_coeffs : List (List Char × ℚ) :=
  [(['A','A'], -7.9), (['T','T'], -7.9),
   (['A','T'], -7.2),
   (['T','A'], -7.2),
   (['C','A'], -8.5), (['T','G'], -8.5),
   (['G','T'], -8.4), (['A','C'], -8.4),
   (['C','T'], -7.8), (['A','G'], -7.8),
   (['G','A'], -8.2), (['T','C'], -8.2),
   (['C','G'], -10.6),
   (['G','C'], -9.8),
   (['G','G'], -8.0), (['C','C'], -8.0)]

/-- delta S coefficients (eu), melting.py lines 109-118. -/
def ds_coeffs : List (List Char × ℚ) :=
  [(['A','A'], -22.2), (['T','T'], -22.2),
   (['A','T'], -20.4),
   (['T','A'], -21.3),
   (['C','A'], -22.7), (['T','G'], -22.7),
   (['G','T'], -22.4), (['A','C'], -22.4),
   (['C','T'], -21.0), (['A','G'], -21.0),
   (['G','A'], -22.2), (['T','C'], -22.2),
   (['C','G'], -27.2),
   (['G','C'], -24.4),
   (['G','G'], -19.9), (['C','C'], -19.9)]

/-- The dict-comprehension sum of melting.py lines 122-123: occurrence count
of every table pair times its delta H coefficient. -/
def dhSum (s : List Char) : ℚ :=
  (dh_coeffs.map (fun pc => (_overcount s pc.1 : ℚ) * pc.2)).sum

/-- The dict-comprehension sum of melting.py lines 124-125 for delta S. -/
def dsSum (s : List Char) : ℚ :=
  (ds_coeffs.map (fun pc => (_overcount s pc.1 : ℚ) * pc.2)).sum

/-- melting.py line 127.  The Python source wraps the filter in a list
literal, so the len call sees a one-element list: the numerator is always 1,
whatever the filter would select.  The embedding keeps the same wrapping. -/
noncomputable def fgc (s : List Char) : ℝ :=
  (([s.filter (fun x => x == 'G' || x == 'C')] : List (List Char)).length : ℝ) /
    (s.length : ℝ)

/-- melting.py line 144: the cation ratio, with the 7.0 sentinel when the
molar sodium concentration is not positive. -/
noncomputable def cation_q (Fmg MNa : ℝ) : ℝ :=
  if MNa > 0 then Real.sqrt Fmg / MNa else 7.0

/-- melting.py lines 135-164: the salt/magnesium-corrected melting
temperature in Kelvin, from the base temperature tm, the fgc value, the
sequence length and the three concentration arguments. -/
noncomputable def saltTm (tm fgcv : ℝ) (slen : ℕ) (Na_c Mg_c dNTPs_c : ℝ) : ℝ :=
  let MNa := Na_c * 1e-3
  let MMg := Mg_c * 1e-3
  let MdNTPs := dNTPs_c * 1e-3
  let Ka : ℝ := 3e4
  let D := (Ka * MdNTPs - Ka * MMg + 1) ^ 2 + (4 * Ka * MMg)
  let Fmg := (-(Ka * MdNTPs - Ka * MMg + 1) + Real.sqrt D) / (2 * Ka)
  let cq := cation_q Fmg MNa
  if cq < 0.22 then
    1 / ((1 / tm) +
      ((4.29 * fgcv - 3.95) * Real.log MNa + 0.94 * Real.log MNa ^ 2) * 1e-5)
  else
    let Fmg2 := MMg
    let aa : ℝ := if cq < 6.0 then
      3.92 * (0.843 - 0.352 * Real.sqrt MNa * Real.log MNa) else 3.92
    let dd : ℝ := if cq < 6.0 then
      1.42 * (1.279 - 4.03 * Real.log MNa * 1e-3 - 8.03 * Real.log MNa ^ 2 * 1e-3)
      else 1.42
    let gg : ℝ := if cq < 6.0 then
      8.31 * (0.486 - 0.258 * Real.log MNa + 5.25 * Real.log MNa ^ 3 * 1e-3)
      else 8.31
    1 / ((1 / tm) +
      (aa - 0.911 * Real.log Fmg2 + fgcv * (6.26 + dd * Real.log Fmg2) +
        1 / (2 * ((slen : ℝ) - 1)) *
          (-48.2 + 52.5 * Real.log Fmg2 + gg * Real.log Fmg2 ^ 2)) * 1e-5)

/-- melting.py lines 72-166, temp: the melting temperature in Celsius.  The
input is uppercased, the terminal correction (which fails on the empty
string) is applied, the nearest-neighbor sums are added, and the base
temperature is either returned directly (uncorrected) or salt-corrected. -/
noncomputable def temp (s0 : List Char) (DNA_c : ℝ := 5000.0) (Na_c : ℝ := 10.0)
    (Mg_c : ℝ := 20.0) (dNTPs_c : ℝ := 10.0) (uncorrected : Bool := false) :
    Option ℝ :=
  let s := s0.map Char.toUpper
  (_tercorr s).map (fun tc =>
    let k := DNA_c * 1e-9
    let dh : ℚ := tc.1 + dhSum s
    let ds : ℚ := tc.2 + dsSum s
    let tm : ℝ := (1000 * (dh : ℝ)) / ((ds : ℝ) + 1.987 * Real.log k)
    if uncorrected then tm - 273.15
    else saltTm tm (fgc s) s.length Na_c Mg_c dNTPs_c - 273.15)

/-- The single error kind of the validator (ValueError in the source). -/
inductive MeltError where
  | InvalidSequence
deriving DecidableEq

/-- The four uppercase nucleotide letters, set("ATGC") in the source. -/
def nucList : List Char := ['A', 'T', 'G', 'C']

/-- melting.py lines 168-172, nucleotide_sequence: reject any character whose
uppercasing is outside A, T, G, C; otherwise return seq itself (the source
returns seq, not seq.upper()). -/
def nucleotide_sequence (seq : List Char) : Except MeltError (List Char) :=
  let non_nucl := (seq.map Char.toUpper).filter (fun c => decide (c ∉ nucList))
  if non_nucl = [] then Except.ok seq else Except.error MeltError.InvalidSequence

/-- Total complement map of the spec (section 4.2): A-T and G-C swapped. -/
def complementChar : Char → Char
  | 'A' => 'T'
  | 'T' => 'A'
  | 'G' => 'C'
  | 'C' => 'G'
  | c => c

/-- Reverse complement as the spec describes it: complement then reverse. -/
def revComp (s : List Char) : List Char := (s.map complementChar).reverse

/-- Terminal delta H adjustment per the spec (section 4.4): 0.1 for G or C,
2.3 for A or T. -/
def dhTerm (c : Char) : ℚ := if c = 'G' ∨ c = 'C' then 0.1 else 2.3

/-- Terminal delta S adjustment per the spec (section 4.4): -2.8 for G or C,
4.1 for A or T. -/
def dsTerm (c : Char) : ℚ := if c = 'G' ∨ c = 'C' then -2.8 else 4.1

/-- Number of starting positions where the pair occurs, as the claims state
it: indices i with sequence slice i..i+len(p) equal to p. -/
def countPositions (st p : List Char) : Nat :=
  ((Finset.range st.length).filter (fun i => (st.drop i).take p.length = p)).card

/-- Fraction of G/C bases over the sequence length, following the words of
the spec (section 4.5 step 4); the reference value for claim C1. -/
noncomputable def fgc_spec (s : List Char) : ℝ :=
  ((s.filter (fun x => x == 'G' || x == 'C')).length : ℝ) / (s.length : ℝ)

/-- Dictionary lookup in one of the coefficient tables. -/
def dictGet (tbl : List (List Char × ℚ)) (p : List Char) : Option ℚ :=
  (tbl.find? (fun e => e.1 == p)).map (fun e => e.2)

/-- All sixteen ordered dinucleotides. -/
def pairs16 : List (List Char) :=
  [['A','A'], ['A','T'], ['A','G'], ['A','C'],
   ['T','A'], ['T','T'], ['T','G'], ['T','C'],
   ['G','A'], ['G','T'], ['G','G'], ['G','C'],
   ['C','A'], ['C','T'], ['C','G'], ['C','C']]

/-- Nearest-neighbor delta H total written out as the spec states it: the sum
over all sixteen dinucleotides of overlap count times coefficient. -/
noncomputable def pairSumDH (s : List Char) : ℝ :=
  (countPositions s ['A','A'] : ℝ) * (-7.9) + (countPositions s ['T','T'] : ℝ) * (-7.9) +
  (countPositions s ['A','T'] : ℝ) * (-7.2) + (countPositions s ['T','A'] : ℝ) * (-7.2) +
  (countPositions s ['C','A'] : ℝ) * (-8.5) + (countPositions s ['T','G'] : ℝ) * (-8.5) +
  (countPositions s ['G','T'] : ℝ) * (-8.4) + (countPositions s ['A','C'] : ℝ) * (-8.4) +
  (countPositions s ['C','T'] : ℝ) * (-7.8) + (countPositions s ['A','G'] : ℝ) * (-7.8) +
  (countPositions s ['G','A'] : ℝ) * (-8.2) + (countPositions s ['T','C'] : ℝ) * (-8.2) +
  (countPositions s ['C','G'] : ℝ) * (-10.6) + (countPositions s ['G','C'] : ℝ) * (-9.8) +
  (countPositions s ['G','G'] : ℝ) * (-8.0) + (countPositions s ['C','C'] : ℝ) * (-8.0)

/-- Nearest-neighbor delta S total written out as the spec states it. -/
noncomputable def pairSumDS (s : List Char) : ℝ :=
  (countPositions s ['A','A'] : ℝ) * (-22.2) + (countPositions s ['T','T'] : ℝ) * (-22.2) +
  (countPositions s ['A','T'] : ℝ) * (-20.4) + (countPositions s ['T','A'] : ℝ) * (-21.3) +
  (countPositions s ['C','A'] : ℝ) * (-22.7) + (countPositions s ['T','G'] : ℝ) * (-22.7) +
  (countPositions s ['G','T'] : ℝ) * (-22.4) + (countPositions s ['A','C'] : ℝ) * (-22.4) +
  (countPositions s ['C','T'] : ℝ) * (-21.0) + (countPositions s ['A','G'] : ℝ) * (-21.0) +
  (countPositions s ['G','A'] : ℝ) * (-22.2) + (countPositions s ['T','C'] : ℝ) * (-22.2) +
  (countPositions s ['C','G'] : ℝ) * (-27.2) + (countPositions s ['G','C'] : ℝ) * (-24.4) +
  (countPositions s ['G','G'] : ℝ) * (-19.9) + (countPositions s ['C','C'] : ℝ) * (-19.9)

/-- Unfolding of the loop when no further occurrence exists. -/
theorem overcountAux_none (st p : List Char) (x : Nat)
    (h : index_from st p x = none) : overcountAux st p x = 0 := by
  unfold overcountAux
  split
  · rfl
  · rename_i i heq
    rw [h] at heq
    exact absurd heq (by simp)

/-- Unfolding of the loop at a found occurrence. -/
theorem overcountAux_some (st p : List Char) (x i : Nat)
    (h : index_from st p x = some i) :
    overcountAux st p x = overcountAux st p (i + 1) + 1 := by
  conv_lhs => unfold overcountAux
  split
  · rename_i heq
    rw [h] at heq
    exact absurd heq (by simp)
  · rename_i j heq
    rw [h] at heq
    have : i = j := by injection heq
    rw [this]

/-- The loop value counts the occurrence positions at or after x, where a
position is any index up to the length (for nonempty p only indices where p
fits can match). -/
theorem overcountAux_eq (st p : List Char) :
    ∀ n x, st.length + 1 - x ≤ n →
      overcountAux st p x =
        ((Finset.range (st.length + 1)).filter
          (fun i => x ≤ i ∧ (st.drop i).take p.length = p)).card := by
  intro n
  induction n with
  | zero =>
    intro x hn
    have hx : st.length < x := by omega
    have hnone : index_from st p x = none := by
      unfold index_from
      rw [dif_pos hx]
    rw [overcountAux_none st p x hnone]
    have hempty : ((Finset.range (st.length + 1)).filter
        (fun i => x ≤ i ∧ (st.drop i).take p.length = p)) = ∅ := by
      apply Finset.filter_eq_empty_iff.mpr
      intro i hi
      rw [Finset.mem_range] at hi
      intro hcon
      omega
    rw [hempty]
    rfl
  | succ n ih =>
    intro x hn
    cases h : index_from st p x with
    | none =>
      rw [overcountAux_none st p x h]
      have hempty : ((Finset.range (st.length + 1)).filter
          (fun i => x ≤ i ∧ (st.drop i).take p.length = p)) = ∅ := by
        apply Finset.filter_eq_empty_iff.mpr
        intro i hi
        rw [Finset.mem_range] at hi
        intro hcon
        exact index_from_none st p x h i hcon.1 (by omega) hcon.2
      rw [hempty]
      rfl
    | some j =>
      obtain ⟨hxj, hjlen, hhit, hleast⟩ := index_from_some st p x j h
      rw [overcountAux_some st p x j h]
      have hrec := ih (j + 1) (by omega)
      rw [hrec]
      have hins : ((Finset.range (st.length + 1)).filter
            (fun i => x ≤ i ∧ (st.drop i).take p.length = p)) =
          insert j ((Finset.range (st.length + 1)).filter
            (fun i => j + 1 ≤ i ∧ (st.drop i).take p.length = p)) := by
        ext i
        simp only [Finset.mem_insert, Finset.mem_filter, Finset.mem_range]
        constructor
        · rintro ⟨hilt, hxle, hocc⟩
          rcases Nat.lt_trichotomy i j with hlt | heq | hgt
          · exact absurd hocc (hleast i hxle hlt)
          · exact Or.inl heq
          · exact Or.inr ⟨hilt, hgt, hocc⟩
        · rintro (rfl | ⟨hilt, hge, hocc⟩)
          · exact ⟨by omega, hxj, hhit⟩
          · exact ⟨hilt, by omega, hocc⟩
      rw [hins, Finset.card_insert_of_not_mem]
      simp only [Finset.mem_filter, Finset.mem_range, not_and]
      intro _ hcon
      omega

/-- The overlap counter equals the number of occurrence starting positions
(searching one index past the end, which only an empty pattern can match). -/
theorem overcount_eq (st p : List Char) :
    _overcount st p =
      ((Finset.range (st.length + 1)).filter
        (fun i => (st.drop i).take p.length = p)).card := by
  rw [_overcount, overcountAux_eq st p (st.length + 1) 0 (by omega)]
  congr 1
  apply Finset.filter_congr
  intro i _
  simp

/-- For a nonempty pattern the counter equals countPositions. -/
theorem overcount_eq_cp (st p : List Char) (hp : p ≠ []) :
    _overcount st p = countPositions st p := by
  rw [overcount_eq, countPositions]
  congr 1
  rw [Finset.range_succ, Finset.filter_insert]
  rw [if_neg]
  intro hcon
  rw [List.drop_length, List.take_nil] at hcon
  exact hp hcon.symm

/-- On the nucleotide alphabet the complement dict never fails and agrees
with the total complement map. -/
theorem mapM_comp_of_nuc : ∀ (s : List Char), (∀ c ∈ s, c ∈ nucList) →
    s.mapM comp = some (s.map complementChar) := by
  intro s
  induction s with
  | nil => intro _; rfl
  | cons c t ih =>
    intro h
    have hc : c ∈ nucList := h c (List.mem_cons_self c t)
    have hcc : comp c = some (complementChar c) := by
      fin_cases hc <;> rfl
    have ht := ih (fun d hd => h d (List.mem_cons_of_mem c hd))
    simp only [List.mapM_cons, hcc, ht, List.map_cons]
    rfl

/-- On the nucleotide alphabet _is_sym decides equality with the reverse
complement. -/
theorem is_sym_char (s : List Char) (h : ∀ c ∈ s, c ∈ nucList) :
    _is_sym s = some (decide (s = revComp s)) := by
  rw [_is_sym, mapM_comp_of_nuc s h]
  rfl

/-- Closed form of the terminal correction on nonempty alphabet sequences. -/
theorem tercorr_char (s : List Char) (hne : s ≠ []) (h : ∀ c ∈ s, c ∈ nucList) :
    _tercorr s = some (dhTerm (s.head hne) + dhTerm (s.getLast hne),
      (if s = revComp s then (-1.4 : ℚ) else 0) + dsTerm (s.head hne) +
        dsTerm (s.getLast hne)) := by
  rw [_tercorr, is_sym_char s h, List.head?_eq_head hne, List.getLast?_eq_getLast s hne]
  simp only [Option.bind_some, Option.map_some']
  have hh : s.head hne ∈ nucList := h _ (List.head_mem hne)
  have hl : s.getLast hne ∈ nucList := h _ (List.getLast_mem hne)
  simp only [nucList, List.mem_cons, List.mem_singleton, List.not_mem_nil,
    or_false] at hh hl
  by_cases hsym : s = revComp s
  · rw [decide_eq_true hsym]
    rcases hh with h1 | h1 | h1 | h1 <;> rcases hl with h2 | h2 | h2 | h2 <;>
      rw [h1, h2] <;> norm_num +decide [dhTerm, dsTerm, if_pos hsym]
  · rw [decide_eq_false hsym]
    rcases hh with h1 | h1 | h1 | h1 <;> rcases hl with h2 | h2 | h2 | h2 <;>
      rw [h1, h2] <;> norm_num +decide [dhTerm, dsTerm, if_neg hsym]

/-- Uppercasing fixes a sequence that is already over the uppercase
alphabet. -/
theorem upperFixed (s : List Char) (h : ∀ c ∈ s, c ∈ nucList) :
    s.map Char.toUpper = s := by
  have : ∀ c ∈ s, Char.toUpper c = id c := by
    intro c hc
    have := h c hc
    fin_cases this <;> rfl
  rw [List.map_congr_left this, List.map_id]

/-- Claim C1 (code bug): the spec says fgc is the fraction of G/C bases, but
the source wraps the filter in a list literal, so fgc is 1 over the length:
on GG the code value is 1/2 while the G/C fraction is 1. -/
theorem C1_fgc_code_bug :
    fgc ['G','G'] = 1 / 2 ∧ fgc_spec ['G','G'] = 1 ∧
      ∀ s : List Char, fgc s = 1 / (s.length : ℝ) := by
  refine ⟨?_, ?_, ?_⟩
  · norm_num [fgc]
  · norm_num +decide [fgc_spec]
  · intro s
    rw [fgc, List.length_singleton]
    norm_num

/-- Claim C2 (amended): validation succeeds exactly when every character
uppercases into A, T, G, C, fails with InvalidSequence otherwise, and on
success returns the input sequence unchanged (not uppercase-normalized). -/
theorem C2_validate (s : List Char) :
    ((∀ c ∈ s, Char.toUpper c ∈ nucList) → nucleotide_sequence s = Except.ok s) ∧
    ((∃ c ∈ s, Char.toUpper c ∉ nucList) →
      nucleotide_sequence s = Except.error MeltError.InvalidSequence) := by
  constructor
  · intro h
    have hcond : ((s.map Char.toUpper).filter (fun d => decide (d ∉ nucList))) = [] := by
      rw [List.filter_eq_nil_iff]
      intro a ha
      rw [List.mem_map] at ha
      obtain ⟨c, hc, rfl⟩ := ha
      simpa using h c hc
    simp only [nucleotide_sequence, hcond, if_true, eq_self_iff_true]
  · rintro ⟨c, hc, hcn⟩
    have hmem : Char.toUpper c ∈ (s.map Char.toUpper).filter (fun d => decide (d ∉ nucList)) := by
      rw [List.mem_filter]
      exact ⟨List.mem_map_of_mem _ hc, by simpa using hcn⟩
    have hcond : ((s.map Char.toUpper).filter (fun d => decide (d ∉ nucList))) ≠ [] :=
      List.ne_nil_of_mem hmem
    simp only [nucleotide_sequence]
    rw [if_neg hcond]

/-- Witness for C2 at the two scenarios of the spec. -/
theorem C2_validate_witness :
    nucleotide_sequence "ABCDEFG".toList = Except.error MeltError.InvalidSequence ∧
      nucleotide_sequence "ATGCATGC".toList = Except.ok "ATGCATGC".toList := by
  constructor
  · exact (C2_validate _).2 ⟨'B', by decide, by decide⟩
  · exact (C2_validate _).1 (by decide)

/-- Counterexample for C2 as stated: on the all-lowercase input atgc the
validator succeeds but returns atgc itself, not the uppercase ATGC. -/
theorem C2_not_normalized :
    nucleotide_sequence ['a','t','g','c'] = Except.ok ['a','t','g','c'] ∧
      (['a','t','g','c'] : List Char) ≠ ['A','T','G','C'] := ⟨rfl, by decide⟩

/-- Claim C7: both coefficient tables contain every one of the sixteen
ordered dinucleotides, and reverse-complement pairs share coefficients. -/
theorem C7_table_symmetry :
    ∀ p ∈ pairs16,
      (dictGet dh_coeffs p).isSome = true ∧
      dictGet dh_coeffs (revComp p) = dictGet dh_coeffs p ∧
      (dictGet ds_coeffs p).isSome = true ∧
      dictGet ds_coeffs (revComp p) = dictGet ds_coeffs p := by
  intro p hp
  fin_cases hp <;>
    simp +decide [dictGet, dh_coeffs, ds_coeffs, revComp, complementChar]

/-- Witness for C7 at the pair CA. -/
theorem C7_table_symmetry_witness :
    dictGet dh_coeffs (revComp ['C','A']) = dictGet dh_coeffs ['C','A'] :=
  (C7_table_symmetry ['C','A'] (by decide)).2.1

/-- Claim C8: with zero molar sodium the cation ratio is the 7.0 sentinel and
the low-ratio test fails, so the high-ratio branch runs without dividing by
sodium; with positive sodium the ratio is the square root of free magnesium
over sodium. -/
theorem C8_cation_sentinel (Fmg MNa : ℝ) :
    (MNa = 0 → cation_q Fmg MNa = 7.0 ∧ ¬ cation_q Fmg MNa < 0.22) ∧
    (0 < MNa → cation_q Fmg MNa = Real.sqrt Fmg / MNa) := by
  constructor
  · rintro rfl
    rw [cation_q, if_neg (lt_irrefl 0)]
    norm_num
  · intro h
    rw [cation_q, if_pos h]

/-- Witness for C8 at zero sodium. -/
theorem C8_cation_sentinel_witness :
    cation_q 4 0 = 7.0 ∧ ¬ cation_q 4 0 < 0.22 :=
  (C8_cation_sentinel 4 0).1 rfl

/-- Claim C10: on the empty string temp fails (the terminal correction
indexes the first character), although validation accepts the empty string. -/
theorem C10_empty_sequence (DNA_c Na_c Mg_c dNTPs_c : ℝ) (u : Bool) :
    temp [] DNA_c Na_c Mg_c dNTPs_c u = none ∧
      nucleotide_sequence [] = Except.ok [] := ⟨rfl, rfl⟩

/-- Claim C6: for a two-character pair the overlap counter returns the number
of starting positions whose two-character slice equals the pair. -/
theorem C6_overcount (st p : List Char) (hp : p.length = 2) :
    _overcount st p = countPositions st p :=
  overcount_eq_cp st p (by intro h; rw [h] at hp; simp at hp)

/-- Witness for C6: three overlapping occurrences of AA in AAAA. -/
theorem C6_overcount_witness : _overcount "AAAA".toList "AA".toList = 3 :=
  (C6_overcount "AAAA".toList "AA".toList (by decide)).trans (by decide)

/-- Claim C5: the terminal correction starts delta S at -1.4 exactly for
self-complementary sequences, applies the per-terminal adjustments to the
first and last characters independently, and a single base gets both. -/
theorem C5_tercorr (s : List Char) (hne : s ≠ []) (h : ∀ c ∈ s, c ∈ nucList) :
    (_tercorr s = some (dhTerm (s.head hne) + dhTerm (s.getLast hne),
      (if s = revComp s then (-1.4 : ℚ) else 0) + dsTerm (s.head hne) +
        dsTerm (s.getLast hne))) ∧
    ∀ c ∈ nucList, _tercorr [c] = some (2 * dhTerm c, 2 * dsTerm c) := by
  constructor
  · exact tercorr_char s hne h
  · intro c hc
    have hsne : ¬([c] = revComp [c]) := by fin_cases hc <;> decide
    rw [tercorr_char [c] (by simp) (fun d hd => by
      rw [List.mem_singleton] at hd; rw [hd]; exact hc)]
    rw [if_neg hsne]
    simp only [List.head_cons, List.getLast_singleton]
    congr 1
    rw [Prod.ext_iff]
    constructor
    · ring
    · ring

/-- Witness for C5 at AC (asymmetric two-base) and the single base G. -/
theorem C5_tercorr_witness :
    _tercorr ['A','C'] = some (2.4, 1.3) ∧ _tercorr ['G'] = some (0.2, -5.6) := by
  have h := C5_tercorr ['A','C'] (by decide) (by decide)
  refine ⟨h.1.trans ?_, (h.2 'G' (by decide)).trans ?_⟩
  · norm_num +decide [dhTerm, dsTerm, List.head_cons, List.getLast_cons,
      List.getLast_singleton]
  · norm_num [dhTerm, dsTerm]

/-- An odd-length alphabet sequence never equals its reverse complement: the
middle character would have to be its own complement. -/
theorem odd_not_revComp (s : List Char) (h : ∀ c ∈ s, c ∈ nucList)
    (hodd : s.length % 2 = 1) : s ≠ revComp s := by
  intro heq
  have hmlt : s.length / 2 < s.length := by omega
  have h1 : s[s.length / 2]? = (revComp s)[s.length / 2]? := by rw [← heq]
  rw [List.getElem?_eq_getElem hmlt, revComp,
    List.getElem?_reverse (by rw [List.length_map]; exact hmlt),
    List.getElem?_map] at h1
  have hidx : (s.map complementChar).length - 1 - s.length / 2 = s.length / 2 := by
    rw [List.length_map]; omega
  rw [hidx, List.getElem?_eq_getElem hmlt, Option.map_some'] at h1
  have h2 := Option.some.inj h1
  have hc : s[s.length / 2] ∈ nucList := h _ (List.getElem_mem hmlt)
  simp only [nucList, List.mem_cons, List.mem_singleton, List.not_mem_nil,
    or_false] at hc
  rcases hc with h3 | h3 | h3 | h3 <;> rw [h3] at h2 <;>
    exact absurd h2 (by decide)

/-- Claim C9: _is_sym is false on every odd-length alphabet sequence, so the
-1.4 entropy start of the terminal correction never applies to them. -/
theorem C9_odd_not_symmetric (s : List Char) (h : ∀ c ∈ s, c ∈ nucList)
    (hodd : s.length % 2 = 1) :
    _is_sym s = some false ∧
    ∀ hne : s ≠ [], _tercorr s = some (dhTerm (s.head hne) + dhTerm (s.getLast hne),
      dsTerm (s.head hne) + dsTerm (s.getLast hne)) := by
  have hneq := odd_not_revComp s h hodd
  constructor
  · rw [is_sym_char s h, decide_eq_false hneq]
  · intro hne
    rw [tercorr_char s hne h, if_neg hneq]
    norm_num

/-- Witness for C9 at the odd-length sequence ATG. -/
theorem C9_odd_witness :
    _is_sym "ATG".toList = some false ∧ _tercorr "ATG".toList = some (2.4, 1.3) := by
  have h := C9_odd_not_symmetric "ATG".toList (by decide) (by decide)
  refine ⟨h.1, (h.2 (by decide)).trans ?_⟩
  norm_num +decide [dhTerm, dsTerm]

/-- The dict-fold delta H sum of the code equals the explicit sixteen-pair
sum of the spec. -/
theorem dhSum_cast (s : List Char) : ((dhSum s : ℚ) : ℝ) = pairSumDH s := by
  rw [dhSum, dh_coeffs]
  simp only [List.map_cons, List.map_nil, List.sum_cons, List.sum_nil]
  rw [overcount_eq_cp s ['A','A'] (by decide), overcount_eq_cp s ['T','T'] (by decide),
    overcount_eq_cp s ['A','T'] (by decide), overcount_eq_cp s ['T','A'] (by decide),
    overcount_eq_cp s ['C','A'] (by decide), overcount_eq_cp s ['T','G'] (by decide),
    overcount_eq_cp s ['G','T'] (by decide), overcount_eq_cp s ['A','C'] (by decide),
    overcount_eq_cp s ['C','T'] (by decide), overcount_eq_cp s ['A','G'] (by decide),
    overcount_eq_cp s ['G','A'] (by decide), overcount_eq_cp s ['T','C'] (by decide),
    overcount_eq_cp s ['C','G'] (by decide), overcount_eq_cp s ['G','C'] (by decide),
    overcount_eq_cp s ['G','G'] (by decide), overcount_eq_cp s ['C','C'] (by decide)]
  rw [pairSumDH]
  push_cast
  ring

/-- The dict-fold delta S sum of the code equals the explicit sixteen-pair
sum of the spec. -/
theorem dsSum_cast (s : List Char) : ((dsSum s : ℚ) : ℝ) = pairSumDS s := by
  rw [dsSum, ds_coeffs]
  simp only [List.map_cons, List.map_nil, List.sum_cons, List.sum_nil]
  rw [overcount_eq_cp s ['A','A'] (by decide), overcount_eq_cp s ['T','T'] (by decide),
    overcount_eq_cp s ['A','T'] (by decide), overcount_eq_cp s ['T','A'] (by decide),
    overcount_eq_cp s ['C','A'] (by decide), overcount_eq_cp s ['T','G'] (by decide),
    overcount_eq_cp s ['G','T'] (by decide), overcount_eq_cp s ['A','C'] (by decide),
    overcount_eq_cp s ['C','T'] (by decide), overcount_eq_cp s ['A','G'] (by decide),
    overcount_eq_cp s ['G','A'] (by decide), overcount_eq_cp s ['T','C'] (by decide),
    overcount_eq_cp s ['C','G'] (by decide), overcount_eq_cp s ['G','C'] (by decide),
    overcount_eq_cp s ['G','G'] (by decide), overcount_eq_cp s ['C','C'] (by decide)]
  rw [pairSumDS]
  push_cast
  ring

/-- Claim C4: with uncorrected set, temp returns the base formula: terminal
corrections plus the sixteen-pair nearest-neighbor sums, divided per the gas
constant times the log of the undivided molar DNA concentration, minus
273.15. -/
theorem C4_uncorrected (s : List Char) (h : ∀ c ∈ s, c ∈ nucList)
    (dh0 ds0 : ℚ) (htc : _tercorr s = some (dh0, ds0))
    (DNA_c Na_c Mg_c dNTPs_c : ℝ) :
    temp s DNA_c Na_c Mg_c dNTPs_c true =
      some ((1000 * ((dh0 : ℝ) + pairSumDH s)) /
        (((ds0 : ℝ) + pairSumDS s) + 1.987 * Real.log (DNA_c * 1e-9)) - 273.15) := by
  simp only [temp, upperFixed s h, htc, Option.map_some', if_true]
  congr 1
  rw [Rat.cast_add, Rat.cast_add, dhSum_cast, dsSum_cast]

/-- Terminal correction value at AT (a self-complementary duplex). -/
theorem tercorr_AT : _tercorr ['A','T'] = some (4.6, 6.8) := by
  rw [tercorr_char ['A','T'] (by decide) (by decide)]
  norm_num +decide [dhTerm, dsTerm, List.head_cons, List.getLast_cons,
    List.getLast_singleton]

/-- Witness for C4 at AT with the default-style concentrations of the
tests. -/
theorem C4_uncorrected_witness :
    temp ['A','T'] 200 50 3 0.8 true =
      some ((1000 * (((4.6 : ℚ) : ℝ) + pairSumDH ['A','T'])) /
        ((((6.8 : ℚ) : ℝ) + pairSumDS ['A','T']) + 1.987 * Real.log ((200 : ℝ) * 1e-9)) -
          273.15) :=
  C4_uncorrected ['A','T'] (by decide) 4.6 6.8 tercorr_AT 200 50 3 0.8

/-- Terminal correction value at ATGCATGC. -/
theorem tercorr_s8 : _tercorr ['A','T','G','C','A','T','G','C'] = some (2.4, 1.3) := by
  rw [tercorr_char ['A','T','G','C','A','T','G','C'] (by decide) (by decide)]
  norm_num +decide [dhTerm, dsTerm, List.head_cons, List.getLast_cons,
    List.getLast_singleton]

/-- Nearest-neighbor delta H sum at ATGCATGC. -/
theorem pairSumDH_s8 : pairSumDH ['A','T','G','C','A','T','G','C'] = -59.5 := by
  have h0 : countPositions ['A','T','G','C','A','T','G','C'] ['A','A'] = 0 := by decide
  have h1 : countPositions ['A','T','G','C','A','T','G','C'] ['T','T'] = 0 := by decide
  have h2 : countPositions ['A','T','G','C','A','T','G','C'] ['A','T'] = 2 := by decide
  have h3 : countPositions ['A','T','G','C','A','T','G','C'] ['T','A'] = 0 := by decide
  have h4 : countPositions ['A','T','G','C','A','T','G','C'] ['C','A'] = 1 := by decide
  have h5 : countPositions ['A','T','G','C','A','T','G','C'] ['T','G'] = 2 := by decide
  have h6 : countPositions ['A','T','G','C','A','T','G','C'] ['G','T'] = 0 := by decide
  have h7 : countPositions ['A','T','G','C','A','T','G','C'] ['A','C'] = 0 := by decide
  have h8 : countPositions ['A','T','G','C','A','T','G','C'] ['C','T'] = 0 := by decide
  have h9 : countPositions ['A','T','G','C','A','T','G','C'] ['A','G'] = 0 := by decide
  have h10 : countPositions ['A','T','G','C','A','T','G','C'] ['G','A'] = 0 := by decide
  have h11 : countPositions ['A','T','G','C','A','T','G','C'] ['T','C'] = 0 := by decide
  have h12 : countPositions ['A','T','G','C','A','T','G','C'] ['C','G'] = 0 := by decide
  have h13 : countPositions ['A','T','G','C','A','T','G','C'] ['G','C'] = 2 := by decide
  have h14 : countPositions ['A','T','G','C','A','T','G','C'] ['G','G'] = 0 := by decide
  have h15 : countPositions ['A','T','G','C','A','T','G','C'] ['C','C'] = 0 := by decide
  rw [pairSumDH, h0, h1, h2, h3, h4, h5, h6, h7, h8, h9, h10, h11, h12, h13, h14, h15]
  norm_num

/-- Nearest-neighbor delta S sum at ATGCATGC. -/
theorem pairSumDS_s8 : pairSumDS ['A','T','G','C','A','T','G','C'] = -157.7 := by
  have h0 : countPositions ['A','T','G','C','A','T','G','C'] ['A','A'] = 0 := by decide
  have h1 : countPositions ['A','T','G','C','A','T','G','C'] ['T','T'] = 0 := by decide
  have h2 : countPositions ['A','T','G','C','A','T','G','C'] ['A','T'] = 2 := by decide
  have h3 : countPositions ['A','T','G','C','A','T','G','C'] ['T','A'] = 0 := by decide
  have h4 : countPositions ['A','T','G','C','A','T','G','C'] ['C','A'] = 1 := by decide
  have h5 : countPositions ['A','T','G','C','A','T','G','C'] ['T','G'] = 2 := by decide
  have h6 : countPositions ['A','T','G','C','A','T','G','C'] ['G','T'] = 0 := by decide
  have h7 : countPositions ['A','T','G','C','A','T','G','C'] ['A','C'] = 0 := by decide
  have h8 : countPositions ['A','T','G','C','A','T','G','C'] ['C','T'] = 0 := by decide
  have h9 : countPositions ['A','T','G','C','A','T','G','C'] ['A','G'] = 0 := by decide
  have h10 : countPositions ['A','T','G','C','A','T','G','C'] ['G','A'] = 0 := by decide
  have h11 : countPositions ['A','T','G','C','A','T','G','C'] ['T','C'] = 0 := by decide
  have h12 : countPositions ['A','T','G','C','A','T','G','C'] ['C','G'] = 0 := by decide
  have h13 : countPositions ['A','T','G','C','A','T','G','C'] ['G','C'] = 2 := by decide
  have h14 : countPositions ['A','T','G','C','A','T','G','C'] ['G','G'] = 0 := by decide
  have h15 : countPositions ['A','T','G','C','A','T','G','C'] ['C','C'] = 0 := by decide
  rw [pairSumDS, h0, h1, h2, h3, h4, h5, h6, h7, h8, h9, h10, h11, h12, h13, h14, h15]
  norm_num

/-- Numeric bracket for log(5/4) from ten terms of the Taylor series of
log(1-x) at x = 1/5. -/
theorem log54_bracket :
    0.22314352 < Real.log (5 / 4) ∧ Real.log (5 / 4) < 0.22314358 := by
  have h15 : |(1 / 5 : ℝ)| < 1 := by rw [abs_of_pos (by norm_num)]; norm_num
  have H := Real.abs_log_sub_add_sum_range_le h15 10
  rw [abs_le] at H
  obtain ⟨H1, H2⟩ := H
  have hlog : Real.log (1 - 1 / 5) = -Real.log (5 / 4) := by
    rw [show ((1 : ℝ) - 1 / 5) = (5 / 4)⁻¹ by norm_num, Real.log_inv]
  rw [hlog] at H1 H2
  simp only [Finset.sum_range_succ, Finset.sum_range_zero] at H1 H2
  rw [abs_of_pos (by norm_num : (0:ℝ) < 1 / 5)] at H1 H2
  norm_num at H1 H2
  constructor <;> linarith

/-- Numeric bracket for log(3/2) from seventeen terms of the Taylor series of
log(1-x) at x = 1/3. -/
theorem log32_bracket :
    0.40546510 < Real.log (3 / 2) ∧ Real.log (3 / 2) < 0.40546512 := by
  have h13 : |(1 / 3 : ℝ)| < 1 := by rw [abs_of_pos (by norm_num)]; norm_num
  have H := Real.abs_log_sub_add_sum_range_le h13 17
  rw [abs_le] at H
  obtain ⟨H1, H2⟩ := H
  have hlog : Real.log (1 - 1 / 3) = -Real.log (3 / 2) := by
    rw [show ((1 : ℝ) - 1 / 3) = (3 / 2)⁻¹ by norm_num, Real.log_inv]
  rw [hlog] at H1 H2
  simp only [Finset.sum_range_succ, Finset.sum_range_zero] at H1 H2
  rw [abs_of_pos (by norm_num : (0:ℝ) < 1 / 3)] at H1 H2
  norm_num at H1 H2
  constructor <;> linarith

/-- log 10 in terms of log 2 and log(5/4). -/
theorem log10_eq : Real.log 10 = 3 * Real.log 2 + Real.log (5 / 4) := by
  rw [show (10 : ℝ) = 2 ^ 3 * (5 / 4) by norm_num,
    Real.log_mul (by norm_num) (by norm_num), Real.log_pow]
  push_cast
  ring

/-- Numeric bracket for the log of the molar DNA concentration 200 nM. -/
theorem logk_bracket :
    -15.4249487 < Real.log ((200 : ℝ) * 1e-9) ∧
      Real.log ((200 : ℝ) * 1e-9) < -15.4249482 := by
  have heq : Real.log ((200 : ℝ) * 1e-9) = Real.log 2 - 7 * Real.log 10 := by
    rw [show ((200 : ℝ) * 1e-9) = 2 / 10 ^ 7 by norm_num,
      Real.log_div (by norm_num) (by norm_num), Real.log_pow]
    push_cast
    ring
  rw [heq, log10_eq]
  have h2a := Real.log_two_gt_d9
  have h2b := Real.log_two_lt_d9
  have h54 := log54_bracket
  constructor <;> linarith [h54.1, h54.2]

/-- Numeric bracket for the log of the molar sodium concentration 50 mM. -/
theorem logNa_bracket :
    -2.9957324 < Real.log ((50 : ℝ) * 1e-3) ∧
      Real.log ((50 : ℝ) * 1e-3) < -2.9957322 := by
  have heq : Real.log ((50 : ℝ) * 1e-3) = -(4 * Real.log 2 + Real.log (5 / 4)) := by
    rw [show ((50 : ℝ) * 1e-3) = (2 ^ 4 * (5 / 4))⁻¹ by norm_num, Real.log_inv,
      Real.log_mul (by norm_num) (by norm_num), Real.log_pow]
    push_cast
    ring
  rw [heq]
  have h2a := Real.log_two_gt_d9
  have h2b := Real.log_two_lt_d9
  have h54 := log54_bracket
  constructor <;> linarith [h54.1, h54.2]

/-- Numeric bracket for the log of the molar magnesium concentration 3 mM. -/
theorem logMg_bracket :
    -5.8091431 < Real.log ((3 : ℝ) * 1e-3) ∧
      Real.log ((3 : ℝ) * 1e-3) < -5.8091428 := by
  have heq : Real.log ((3 : ℝ) * 1e-3) =
      (Real.log 2 + Real.log (3 / 2)) - 3 * (3 * Real.log 2 + Real.log (5 / 4)) := by
    rw [show ((3 : ℝ) * 1e-3) = (2 * (3 / 2)) / 10 ^ 3 by norm_num,
      Real.log_div (by norm_num) (by norm_num),
      Real.log_mul (by norm_num) (by norm_num), Real.log_pow, ← log10_eq]
    push_cast
    ring
  rw [heq]
  have h2a := Real.log_two_gt_d9
  have h2b := Real.log_two_lt_d9
  have h54 := log54_bracket
  have h32 := log32_bracket
  constructor <;> linarith [h54.1, h54.2, h32.1, h32.2]

/-- Numeric bracket for the square root of the molar sodium concentration. -/
theorem sqrtNa_bracket :
    0.22360679 < Real.sqrt ((50 : ℝ) * 1e-3) ∧
      Real.sqrt ((50 : ℝ) * 1e-3) < 0.22360680 := by
  constructor
  · rw [show ((50 : ℝ) * 1e-3) = 0.05 by norm_num]
    rw [Real.lt_sqrt (by norm_num)]
    norm_num
  · rw [show ((50 : ℝ) * 1e-3) = 0.05 by norm_num]
    rw [Real.sqrt_lt' (by norm_num)]
    norm_num

/-- Numeric bracket for the square root of the free-magnesium discriminant. -/
theorem sqrt4585_bracket :
    67.712627 < Real.sqrt 4585 ∧ Real.sqrt 4585 < 67.712629 := by
  constructor
  · rw [Real.lt_sqrt (by norm_num)]
    norm_num
  · rw [Real.sqrt_lt' (by norm_num)]
    norm_num

/-- Interval bound for the rescaled constant a of the high-ratio branch. -/
theorem aa_bracket (SN L : ℝ) (hs1 : 0.22360679 < SN) (hs2 : SN < 0.22360680)
    (hn1 : -2.9957324 < L) (hn2 : L < -2.9957322) :
    4.2288679 < 3.92 * (0.843 - 0.352 * SN * L) ∧
      3.92 * (0.843 - 0.352 * SN * L) < 4.2288682 := by
  constructor <;> nlinarith

/-- Interval bound for the rescaled constant d of the high-ratio branch. -/
theorem dd_bracket (L : ℝ) (hn1 : -2.9957324 < L) (hn2 : L < -2.9957322) :
    1.7309916 < 1.42 * (1.279 - 4.03 * L * 1e-3 - 8.03 * L ^ 2 * 1e-3) ∧
      1.42 * (1.279 - 4.03 * L * 1e-3 - 8.03 * L ^ 2 * 1e-3) < 1.7309919 := by
  have hq1 : (8.9744113 : ℝ) < L ^ 2 := by nlinarith
  have hq2 : L ^ 2 < 8.9744127 := by nlinarith
  constructor <;> nlinarith

/-- Interval bound for the rescaled constant g of the high-ratio branch. -/
theorem gg_bracket (L : ℝ) (hn1 : -2.9957324 < L) (hn2 : L < -2.9957322) :
    9.2885265 < 8.31 * (0.486 - 0.258 * L + 5.25 * L ^ 3 * 1e-3) ∧
      8.31 * (0.486 - 0.258 * L + 5.25 * L ^ 3 * 1e-3) < 9.2885285 := by
  have hq1 : (8.9744113 : ℝ) < L ^ 2 := by nlinarith
  have hq2 : L ^ 2 < 8.9744127 := by nlinarith
  have hc1 : (-26.884943 : ℝ) < L ^ 3 := by nlinarith
  have hc2 : L ^ 3 < -26.884929 := by nlinarith
  constructor <;> nlinarith

/-- Interval bound for the bracketed high-ratio correction sum with fgc = 1/8
and sequence length 8. -/
theorem corr_bracket (a d g f : ℝ)
    (ha1 : 4.2288679 < a) (ha2 : a < 4.2288682)
    (hd1 : 1.7309916 < d) (hd2 : d < 1.7309919)
    (hg1 : 9.2885265 < g) (hg2 : g < 9.2885285)
    (hf1 : -5.8091431 < f) (hf2 : f < -5.8091428) :
    6.20880 < a - 0.911 * f + 1 / 8 * (6.26 + d * f) +
        1 / 14 * (-48.2 + 52.5 * f + g * f ^ 2) ∧
      a - 0.911 * f + 1 / 8 * (6.26 + d * f) +
        1 / 14 * (-48.2 + 52.5 * f + g * f ^ 2) < 6.20887 := by
  have hf2b1 : (33.7461398 : ℝ) < f ^ 2 := by nlinarith
  have hf2b2 : f ^ 2 < 33.7461440 := by nlinarith
  have hdf1 : (-10.0555800 : ℝ) < d * f := by nlinarith
  have hdf2 : d * f < -10.0555770 := by nlinarith
  have hgf1 : (313.45175 : ℝ) < g * f ^ 2 := by nlinarith
  have hgf2 : g * f ^ 2 < 313.45207 := by nlinarith
  constructor <;> linarith

/-- Final inversion step: the corrected Kelvin temperature, minus 273.15,
lands in the expected Celsius window. -/
theorem invtm_final (it c : ℝ)
    (h1 : 0.0032758208 < it) (h2 : it < 0.0032758210)
    (hc1 : 6.20880 < c) (hc2 : c < 6.20887) :
    25.8 ≤ 1 / (it + c * 1e-5) - 273.15 ∧
      1 / (it + c * 1e-5) - 273.15 ≤ 26.6 := by
  have hpos : 0 < it + c * 1e-5 := by nlinarith
  have hu : 1 / (it + c * 1e-5) < 299.60 := by
    rw [div_lt_iff₀ hpos]
    nlinarith
  have hl : 299.58 < 1 / (it + c * 1e-5) := by
    rw [lt_div_iff₀ hpos]
    nlinarith
  constructor <;> linarith

set_option maxHeartbeats 1000000 in
/-- The salt-corrected temperature on the ATGCATGC test inputs lies in the
expected Celsius window, given the bracket on the reciprocal base
temperature. -/
theorem saltTm_bound (tm : ℝ)
    (h1 : 0.0032758208 < 1 / tm) (h2 : 1 / tm < 0.0032758210) :
    25.8 ≤ saltTm tm (1 / 8) 8 50 3 0.8 - 273.15 ∧
      saltTm tm (1 / 8) 8 50 3 0.8 - 273.15 ≤ 26.6 := by
  simp only [saltTm]
  rw [show ((3e4 : ℝ) * (0.8 * 1e-3) - 3e4 * (3 * 1e-3) + 1) = -65 by norm_num]
  rw [show ((-65 : ℝ)) ^ 2 + (4 * 3e4 * (3 * 1e-3)) = 4585 by norm_num]
  rw [show ((-(-65 : ℝ)) + Real.sqrt 4585) / (2 * 3e4) =
    (65 + Real.sqrt 4585) / 60000 by norm_num]
  have h45 := sqrt4585_bracket
  have hFb1 : (0.0022118771 : ℝ) < (65 + Real.sqrt 4585) / 60000 := by
    rw [lt_div_iff₀ (by norm_num : (0:ℝ) < 60000)]
    linarith [h45.1]
  have hFb2 : (65 + Real.sqrt 4585) / 60000 < 0.0022118772 := by
    rw [div_lt_iff₀ (by norm_num : (0:ℝ) < 60000)]
    linarith [h45.2]
  have hMNa : (0 : ℝ) < 50 * 1e-3 := by norm_num
  have hcq : cation_q ((65 + Real.sqrt 4585) / 60000) (50 * 1e-3) =
      Real.sqrt ((65 + Real.sqrt 4585) / 60000) / (50 * 1e-3) := by
    rw [cation_q, if_pos hMNa]
  have hsq_lo : (0.011 : ℝ) ≤ Real.sqrt ((65 + Real.sqrt 4585) / 60000) := by
    rw [Real.le_sqrt (by norm_num) (by positivity)]
    nlinarith [hFb1]
  have hsq_hi : Real.sqrt ((65 + Real.sqrt 4585) / 60000) < 0.3 := by
    rw [Real.sqrt_lt' (by norm_num)]
    nlinarith [hFb2]
  have hno : ¬ (cation_q ((65 + Real.sqrt 4585) / 60000) (50 * 1e-3) < 0.22) := by
    rw [hcq, not_lt, le_div_iff₀ hMNa]
    nlinarith [hsq_lo]
  have hyes6 : cation_q ((65 + Real.sqrt 4585) / 60000) (50 * 1e-3) < 6.0 := by
    rw [hcq, div_lt_iff₀ hMNa]
    nlinarith [hsq_hi]
  rw [if_neg hno, if_pos hyes6, if_pos hyes6, if_pos hyes6]
  rw [show (2 * (((8 : ℕ) : ℝ) - 1)) = 14 by norm_num]
  have ha := aa_bracket (Real.sqrt (50 * 1e-3)) (Real.log (50 * 1e-3))
    sqrtNa_bracket.1 sqrtNa_bracket.2 logNa_bracket.1 logNa_bracket.2
  have hd := dd_bracket (Real.log (50 * 1e-3)) logNa_bracket.1 logNa_bracket.2
  have hg := gg_bracket (Real.log (50 * 1e-3)) logNa_bracket.1 logNa_bracket.2
  have hco := corr_bracket _ _ _ (Real.log (3 * 1e-3))
    ha.1 ha.2 hd.1 hd.2 hg.1 hg.2 logMg_bracket.1 logMg_bracket.2
  exact invtm_final (1 / tm) _ h1 h2 hco.1 hco.2

/-- Bracket for the reciprocal of the base temperature at ATGCATGC with 200
nM DNA. -/
theorem base_inv_bracket (lk : ℝ) (hk1 : -15.4249487 < lk) (hk2 : lk < -15.4249482) :
    0.0032758208 < (156.4 - 1.987 * lk) / 57100 ∧
      (156.4 - 1.987 * lk) / 57100 < 0.0032758210 := by
  constructor
  · rw [lt_div_iff₀ (by norm_num : (0:ℝ) < 57100)]
    nlinarith
  · rw [div_lt_iff₀ (by norm_num : (0:ℝ) < 57100)]
    nlinarith

set_option maxHeartbeats 1000000 in
/-- Claim C3: temp on ATGCATGC with dnaConc 200 nM, naConc 50 mM, mgConc 3
mM, dntpConc 0.8 mM, corrected, returns a value within 0.4 of 26.2 Celsius.
Note the value is the one the code computes, with its fgc of 1/8. -/
theorem C3_atgcatgc :
    ∃ t, temp "ATGCATGC".toList 200 50 3 0.8 false = some t ∧ |t - 26.2| ≤ 0.4 := by
  have hs : "ATGCATGC".toList = ['A','T','G','C','A','T','G','C'] := rfl
  rw [hs]
  have hmap : (['A','T','G','C','A','T','G','C'] : List Char).map Char.toUpper =
      ['A','T','G','C','A','T','G','C'] := by decide
  simp only [temp, hmap, tercorr_s8, Option.map_some']
  rw [if_neg (by simp : ¬ (false = true))]
  have hfgc : fgc ['A','T','G','C','A','T','G','C'] = 1 / 8 := by
    rw [fgc, List.length_singleton]
    norm_num
  have hlen : (['A','T','G','C','A','T','G','C'] : List Char).length = 8 := by decide
  rw [hfgc, hlen]
  have hdh : (((2.4 : ℚ) + dhSum ['A','T','G','C','A','T','G','C'] : ℚ) : ℝ) = -57.1 := by
    rw [Rat.cast_add, dhSum_cast, pairSumDH_s8]
    norm_num
  have hds : (((1.3 : ℚ) + dsSum ['A','T','G','C','A','T','G','C'] : ℚ) : ℝ) = -156.4 := by
    rw [Rat.cast_add, dsSum_cast, pairSumDS_s8]
    norm_num
  rw [hdh, hds]
  have hone : 1 / ((1000 * (-57.1 : ℝ)) / (-156.4 + 1.987 * Real.log ((200:ℝ) * 1e-9))) =
      (156.4 - 1.987 * Real.log ((200:ℝ) * 1e-9)) / 57100 := by
    rw [one_div_div]
    ring
  have hb := base_inv_bracket (Real.log ((200:ℝ) * 1e-9)) logk_bracket.1 logk_bracket.2
  have hsal := saltTm_bound ((1000 * (-57.1 : ℝ)) /
      (-156.4 + 1.987 * Real.log ((200:ℝ) * 1e-9)))
    (by rw [hone]; exact hb.1) (by rw [hone]; exact hb.2)
  refine ⟨_, rfl, ?_⟩
  rw [abs_le]
  constructor <;> linarith [hsal.1, hsal.2]
